import Mathlib

/-!
Verification of the ubuild engine-resolution and target-resolution core.

The definitions below are a shallow embedding of the TypeScript sources:
* `src/core/engine-resolver.ts` (EngineResolver: resolveEngine, findEngineInstallations,
  queryRegistryKey, loadEngineVersionInfo, removeDuplicateEngines, compareVersions),
* `src/core/project-detector.ts` (ProjectDetector: validateUProject, findTargetFiles),
* `src/commands/engine.ts`  (BuildExecutor: validateOptions target resolution,
  getAvailableTargets).

I/O (filesystem probes, registry queries, environment) is represented by passing the
observed results of those probes as explicit arguments; everything downstream of the
probes is embedded faithfully.  JavaScript numbers holding version components are
embedded as `Int`; JavaScript string truthiness (`""` is falsy) is embedded explicitly
where the source relies on it.
-/

namespace UBuild

/-- Version record parsed from a `Build.version` / `UnrealEditor.version` file
(interface `EngineVersionInfo` in `src/types/engine.ts`). -/
structure EngineVersionInfo where
  MajorVersion : Int
  MinorVersion : Int
  PatchVersion : Int
  Changelist : Int
  CompatibleChangelist : Int
  IsLicenseeVersion : Int
  IsPromotedBuild : Int
  BranchName : String
  BuildId : String
  deriving DecidableEq, Repr

/-- Discovery source of an installation (`'registry' | 'launcher' | 'environment'`). -/
inductive EngineSource where
  | registry
  | launcher
  | environment
  deriving DecidableEq, Repr

/-- One discovered engine installation (interface `EngineInstallation`). -/
structure EngineInstallation where
  path : String
  version : Option EngineVersionInfo
  associationId : String
  displayName : Option String := none
  installedDate : Option String := none
  source : Option EngineSource := none
  deriving DecidableEq, Repr

/-- Engine association declared by a `.uproject` file (interface `EngineAssociation`). -/
structure EngineAssociation where
  guid : String
  name : Option String := none
  path : Option String := none
  version : Option String := none
  deriving DecidableEq, Repr

/-- Result record of `EngineResolver.resolveEngine` (interface `EngineDetectionResult`). -/
structure EngineDetectionResult where
  engine : Option EngineInstallation
  uprojectEngine : Option EngineAssociation
  error : Option String
  warnings : List String
  deriving DecidableEq, Repr

/-- Embedding of `EngineResolver.compareVersions` (engine-resolver.ts, lines 460-476):
`undefined` versions compare below defined ones; defined versions compare by
Major, then Minor, then Patch, then Changelist, each by integer subtraction. -/
def compareVersions : Option EngineVersionInfo → Option EngineVersionInfo → Int
  | none, none => 0
  | none, some _ => -1
  | some _, none => 1
  | some a, some b =>
    if a.MajorVersion ≠ b.MajorVersion then a.MajorVersion - b.MajorVersion
    else if a.MinorVersion ≠ b.MinorVersion then a.MinorVersion - b.MinorVersion
    else if a.PatchVersion ≠ b.PatchVersion then a.PatchVersion - b.PatchVersion
    else a.Changelist - b.Changelist

/-- Lexicographic strict order on version records, written from the spec's words:
Major, then Minor, then Patch, then Changelist, each ascending. -/
def versionLexLt (a b : EngineVersionInfo) : Prop :=
  a.MajorVersion < b.MajorVersion ∨
    (a.MajorVersion = b.MajorVersion ∧
      (a.MinorVersion < b.MinorVersion ∨
        (a.MinorVersion = b.MinorVersion ∧
          (a.PatchVersion < b.PatchVersion ∨
            (a.PatchVersion = b.PatchVersion ∧ a.Changelist < b.Changelist)))))

theorem compareVersions_some_lt_iff (a b : EngineVersionInfo) :
    compareVersions (some a) (some b) < 0 ↔ versionLexLt a b := by
  simp only [compareVersions, versionLexLt]
  split_ifs <;> omega

theorem compareVersions_neg (a b : Option EngineVersionInfo) :
    compareVersions a b = - compareVersions b a := by
  rcases a with _ | a <;> rcases b with _ | b <;> simp only [compareVersions] <;>
    first
      | rfl
      | (split_ifs <;> omega)

theorem compareVersions_self (a : Option EngineVersionInfo) : compareVersions a a = 0 := by
  rcases a with _ | a <;> simp [compareVersions]

theorem compareVersions_trans_lt (a b c : Option EngineVersionInfo)
    (h1 : compareVersions a b < 0) (h2 : compareVersions b c < 0) :
    compareVersions a c < 0 := by
  rcases a with _ | a <;> rcases b with _ | b <;> rcases c with _ | c <;>
    simp only [compareVersions] at * <;> omega

theorem compareVersions_trans_le (a b c : Option EngineVersionInfo)
    (h1 : compareVersions a b ≤ 0) (h2 : compareVersions b c ≤ 0) :
    compareVersions a c ≤ 0 := by
  rcases a with _ | a <;> rcases b with _ | b <;> rcases c with _ | c <;>
    simp only [compareVersions] at * <;> omega

theorem compareVersions_total (a b : Option EngineVersionInfo) :
    compareVersions a b ≤ 0 ∨ compareVersions b a ≤ 0 := by
  have h := compareVersions_neg a b
  omega

/-- C4: transitivity of the strict version order; a missing version sorts strictly
below any present version; the order on present versions is exactly the lexicographic
order on (Major, Minor, Patch, Changelist); and the comparison is antisymmetric
(so it induces a total order on the comparison classes). -/
theorem version_order_total_order :
    (∀ a b c : Option EngineVersionInfo,
        compareVersions a b < 0 → compareVersions b c < 0 → compareVersions a c < 0) ∧
    (∀ v : EngineVersionInfo, compareVersions none (some v) < 0) ∧
    (∀ a b : EngineVersionInfo, compareVersions (some a) (some b) < 0 ↔ versionLexLt a b) ∧
    (∀ a b : Option EngineVersionInfo, compareVersions a b = - compareVersions b a) := by
  refine ⟨compareVersions_trans_lt, ?_, compareVersions_some_lt_iff, compareVersions_neg⟩
  intro v
  simp [compareVersions]

/-- Sample version records used by concrete witnesses: 4.27.2, 5.1.0, 5.3.1. -/
def v4_27 : EngineVersionInfo :=
  { MajorVersion := 4, MinorVersion := 27, PatchVersion := 2, Changelist := 23058290
    CompatibleChangelist := 23058290, IsLicenseeVersion := 0, IsPromotedBuild := 1
    BranchName := "++UE4+Release-4.27", BuildId := "" }

def v5_1 : EngineVersionInfo :=
  { MajorVersion := 5, MinorVersion := 1, PatchVersion := 0, Changelist := 23058290
    CompatibleChangelist := 23058290, IsLicenseeVersion := 0, IsPromotedBuild := 1
    BranchName := "++UE5+Release-5.1", BuildId := "" }

def v5_3 : EngineVersionInfo :=
  { MajorVersion := 5, MinorVersion := 3, PatchVersion := 1, Changelist := 29314046
    CompatibleChangelist := 29314046, IsLicenseeVersion := 0, IsPromotedBuild := 1
    BranchName := "++UE5+Release-5.3", BuildId := "" }

theorem version_order_total_order_witness :
    compareVersions (some v4_27) (some v5_3) < 0 :=
  version_order_total_order.1 (some v4_27) (some v5_1) (some v5_3)
    (by decide) (by decide)

/-- Stable insertion of `x` into `l`: `x` goes directly before the first element `y`
with `le x y`.  Together with `stableSort` this embeds JavaScript
`Array.prototype.sort`, which ECMAScript requires to be stable; for a consistent
comparator the stable sorted result is unique, so a stable insertion sort is a
faithful embedding of the call `engineInstallations.sort(...)`. -/
def sortInsert (le : α → α → Bool) (x : α) : List α → List α
  | [] => [x]
  | y :: ys => if le x y then x :: y :: ys else y :: sortInsert le x ys

/-- Stable sort by `le`; see `sortInsert`. -/
def stableSort (le : α → α → Bool) : List α → List α
  | [] => []
  | x :: xs => sortInsert le x (stableSort le xs)

theorem sortInsert_perm (le : α → α → Bool) (x : α) :
    ∀ l : List α, (sortInsert le x l).Perm (x :: l)
  | [] => List.Perm.refl _
  | y :: ys => by
    rw [sortInsert]
    by_cases h : le x y = true
    · rw [if_pos h]
    · rw [if_neg h]
      exact ((sortInsert_perm le x ys).cons y).trans (List.Perm.swap x y ys)

theorem stableSort_perm (le : α → α → Bool) :
    ∀ l : List α, (stableSort le l).Perm l
  | [] => List.Perm.refl _
  | x :: xs => (sortInsert_perm le x _).trans ((stableSort_perm le xs).cons x)

theorem pairwise_sortInsert (le : α → α → Bool)
    (letrans : ∀ a b c, le a b = true → le b c = true → le a c = true)
    (letotal : ∀ a b, le a b = true ∨ le b a = true) (x : α) :
    ∀ l : List α, l.Pairwise (fun a b => le a b = true) →
      (sortInsert le x l).Pairwise (fun a b => le a b = true)
  | [], _ => by simp [sortInsert]
  | y :: ys, h => by
    rcases List.pairwise_cons.mp h with ⟨hy, hys⟩
    rw [sortInsert]
    by_cases hxy : le x y = true
    · rw [if_pos hxy]
      refine List.pairwise_cons.mpr ⟨?_, h⟩
      intro z hz
      rcases List.mem_cons.mp hz with rfl | hz
      · exact hxy
      · exact letrans x y z hxy (hy z hz)
    · rw [if_neg hxy]
      refine List.pairwise_cons.mpr
        ⟨?_, pairwise_sortInsert le letrans letotal x ys hys⟩
      intro z hz
      have hz2 := (sortInsert_perm le x ys).mem_iff.mp hz
      rcases List.mem_cons.mp hz2 with rfl | hz3
      · rcases letotal z y with h1 | h1
        · exact absurd h1 hxy
        · exact h1
      · exact hy z hz3

theorem pairwise_stableSort (le : α → α → Bool)
    (letrans : ∀ a b c, le a b = true → le b c = true → le a c = true)
    (letotal : ∀ a b, le a b = true ∨ le b a = true) :
    ∀ l : List α, (stableSort le l).Pairwise (fun a b => le a b = true)
  | [] => by simp [stableSort]
  | x :: xs =>
    pairwise_sortInsert le letrans letotal x _
      (pairwise_stableSort le letrans letotal xs)

/-- Comparator used at engine-resolver.ts line 44:
`(a, b) => this.compareVersions(b.version, a.version)`.  An element `a` may stay
before `b` exactly when the comparator is `≤ 0`, so the sorted (descending) order
is characterized by this boolean relation. -/
def versionDescLe (a b : EngineInstallation) : Bool :=
  compareVersions b.version a.version ≤ 0

theorem versionDescLe_trans (a b c : EngineInstallation)
    (h1 : versionDescLe a b = true) (h2 : versionDescLe b c = true) :
    versionDescLe a c = true := by
  simp only [versionDescLe, decide_eq_true_eq] at *
  exact compareVersions_trans_le _ _ _ h2 h1

theorem versionDescLe_total (a b : EngineInstallation) :
    versionDescLe a b = true ∨ versionDescLe b a = true := by
  simp only [versionDescLe, decide_eq_true_eq]
  exact compareVersions_total _ _

/-- Outcome of `EngineResolver.getEngineAssociationFromProject`: an optional
association plus accumulated warnings. -/
structure UProjectReadResult where
  association : Option EngineAssociation
  warnings : List String
  deriving DecidableEq, Repr

/-- Association extracted from the optional project read (resolveEngine lines 17-24;
`none` for the whole argument means no `projectPath` was passed). -/
def associationOfRead : Option UProjectReadResult → Option EngineAssociation
  | some r => r.association
  | none => none

/-- Warnings accumulated from the optional project read (resolveEngine line 23). -/
def warningsOfRead : Option UProjectReadResult → List String
  | some r => r.warnings
  | none => []

/-- JavaScript `a || b` on an optional string `a` (`undefined` and `""` are falsy). -/
def jsOrStr (o : Option String) (d : String) : String :=
  match o with
  | some s => if s.isEmpty then d else s
  | none => d

/-- Embedding of resolveEngine lines 30-39: the association match.  The catalog is
searched only when an association exists and the catalog is non-empty; `find`
returns the first installation whose `associationId` equals the association guid. -/
def matchedEngineOf (uprojectEngine : Option EngineAssociation)
    (engineInstallations : List EngineInstallation) : Option EngineInstallation :=
  match uprojectEngine with
  | some u =>
    if 0 < engineInstallations.length then
      engineInstallations.find? (fun e => e.associationId == u.guid)
    else none
  | none => none

/-- Embedding of resolveEngine lines 36-38: the not-found warning is pushed only
when an association with a truthy guid exists, the catalog is non-empty and no
installation matched. -/
def resolveWarnings (uprojectEngine : Option EngineAssociation)
    (engineInstallations : List EngineInstallation)
    (warnings0 : List String) : List String :=
  match uprojectEngine with
  | some u =>
    if 0 < engineInstallations.length ∧
        matchedEngineOf (some u) engineInstallations = none ∧ u.guid ≠ "" then
      warnings0 ++
        ["Engine with association ID " ++ u.guid ++ " not found in installed engines"]
    else warnings0
  | none => warnings0

/-- Embedding of `EngineResolver.resolveEngine` (engine-resolver.ts lines 12-61),
parameterized by the outcome of the project-descriptor read and by the discovered
catalog (the results of the two I/O phases, lines 18-27).  Lines 41-47: when no
engine matched and the catalog is non-empty, the catalog is sorted descending by
version and the first element is taken, with an unassociated-choice warning. -/
def resolveEngineCore (uprojectResult : Option UProjectReadResult)
    (engineInstallations : List EngineInstallation) : EngineDetectionResult :=
  let uprojectEngine := associationOfRead uprojectResult
  let warnings1 :=
    resolveWarnings uprojectEngine engineInstallations (warningsOfRead uprojectResult)
  match matchedEngineOf uprojectEngine engineInstallations with
  | some e =>
    { engine := some e, uprojectEngine := uprojectEngine, error := none,
      warnings := warnings1 }
  | none =>
    if 0 < engineInstallations.length then
      match stableSort versionDescLe engineInstallations with
      | [] =>
        { engine := none, uprojectEngine := uprojectEngine, error := none,
          warnings := warnings1 }
      | e :: _ =>
        { engine := some e, uprojectEngine := uprojectEngine, error := none,
          warnings := warnings1 ++
            ["Using engine " ++ jsOrStr e.displayName e.associationId ++
              " (not associated with project)"] }
    else
      { engine := none, uprojectEngine := uprojectEngine, error := none,
        warnings := warnings1 }

/-- C1: association-first matching.  Whenever the project declares an association
and some installation in the catalog carries that guid as its `associationId`,
`resolveEngine` returns the first such installation — the version-max fallback
(and hence any strictly newer but differently-associated installation) is never
consulted — and the returned installation's `associationId` equals the guid. -/
theorem resolve_association_first (assoc : EngineAssociation) (ws : List String)
    (catalog : List EngineInstallation)
    (h : (catalog.find? (fun e => e.associationId == assoc.guid)).isSome = true) :
    (resolveEngineCore (some ⟨some assoc, ws⟩) catalog).engine
        = catalog.find? (fun e => e.associationId == assoc.guid) ∧
      ∀ e, catalog.find? (fun e2 => e2.associationId == assoc.guid) = some e →
        e.associationId = assoc.guid := by
  rcases Option.isSome_iff_exists.mp h with ⟨e, he⟩
  have hmem : e ∈ catalog := List.mem_of_find?_eq_some he
  have hlen : 0 < catalog.length := List.length_pos.mpr (List.ne_nil_of_mem hmem)
  have hm : matchedEngineOf (some assoc) catalog = some e := by
    simp only [matchedEngineOf, if_pos hlen, he]
  constructor
  · simp only [resolveEngineCore, associationOfRead, hm, he]
  · intro e2 he2
    have hp := @List.find?_some EngineInstallation
      (fun x => x.associationId == assoc.guid) e2 catalog he2
    exact eq_of_beq hp

/-- Concrete catalog used in witnesses: G2 (version 5.3) is strictly newer than
G1 (version 5.1) and listed first, yet an association to G1 must win. -/
def instG1 : EngineInstallation :=
  { path := "D:\\Build\\UE_Custom", version := some v5_1
    associationId := "{11111111-2222-3333-4444-555555555555}"
    displayName := some "UE Engine G1", source := some .registry }

def instG2 : EngineInstallation :=
  { path := "C:\\Program Files\\Epic Games\\UE_5.3", version := some v5_3
    associationId := "{66666666-7777-8888-9999-aaaaaaaaaaaa}"
    displayName := some "UE Engine G2", source := some .registry }

def assocG1 : EngineAssociation :=
  { guid := "{11111111-2222-3333-4444-555555555555}"
    name := some "{11111111-2222-3333-4444-555555555555}" }

theorem resolve_association_first_witness :
    (resolveEngineCore (some ⟨some assocG1, []⟩) [instG2, instG1]).engine
      = some instG1 := by
  have h := resolve_association_first assocG1 [] [instG2, instG1] (by decide)
  rw [h.1]
  decide

/-- C2: version-max fallback.  When no installation matched the association (or
there was none) and the catalog is non-empty, the returned installation is a
maximum of the catalog under `compareVersions` (Major, Minor, Patch, Changelist;
missing version lowest), and the warnings contain the unassociated-choice
warning for it. -/
theorem resolve_version_max_fallback (upr : Option UProjectReadResult)
    (catalog : List EngineInstallation) (hne : catalog ≠ [])
    (hnm : matchedEngineOf (associationOfRead upr) catalog = none) :
    ∃ e, (resolveEngineCore upr catalog).engine = some e ∧ e ∈ catalog ∧
      (∀ e2 ∈ catalog, compareVersions e2.version e.version ≤ 0) ∧
      ("Using engine " ++ jsOrStr e.displayName e.associationId ++
          " (not associated with project)") ∈ (resolveEngineCore upr catalog).warnings := by
  have hlen : 0 < catalog.length := List.length_pos.mpr hne
  have hperm := stableSort_perm versionDescLe catalog
  have hsne : stableSort versionDescLe catalog ≠ [] := by
    intro h0
    have h1 : catalog.Perm [] := by
      rw [← h0]
      exact hperm.symm
    exact hne h1.eq_nil
  rcases hs : stableSort versionDescLe catalog with _ | ⟨e, rest⟩
  · exact absurd hs hsne
  have hres : resolveEngineCore upr catalog =
      { engine := some e, uprojectEngine := associationOfRead upr, error := none,
        warnings := resolveWarnings (associationOfRead upr) catalog (warningsOfRead upr) ++
          ["Using engine " ++ jsOrStr e.displayName e.associationId ++
            " (not associated with project)"] } := by
    simp only [resolveEngineCore, hnm, if_pos hlen, hs]
  refine ⟨e, by rw [hres], ?_, ?_, ?_⟩
  · refine hperm.mem_iff.mp ?_
    rw [hs]
    exact List.mem_cons_self e rest
  · intro e2 he2
    have he2s : e2 ∈ stableSort versionDescLe catalog := hperm.mem_iff.mpr he2
    rw [hs] at he2s
    rcases List.mem_cons.mp he2s with rfl | he2r
    · have := compareVersions_self e2.version
      omega
    · have hp := pairwise_stableSort versionDescLe versionDescLe_trans
        versionDescLe_total catalog
      rw [hs] at hp
      have := List.rel_of_pairwise_cons hp he2r
      simpa [versionDescLe] using this
  · rw [hres]
    simp

theorem resolve_version_max_fallback_witness :
    (∃ e, (resolveEngineCore none [instG1, instG2, { path := "C:\\UE4", version := some v4_27, associationId := "UE_4.27", source := some .launcher }]).engine = some e ∧
      e ∈ [instG1, instG2, { path := "C:\\UE4", version := some v4_27, associationId := "UE_4.27", source := some .launcher }] ∧
      (∀ e2 ∈ [instG1, instG2, { path := "C:\\UE4", version := some v4_27, associationId := "UE_4.27", source := some .launcher }], compareVersions e2.version e.version ≤ 0) ∧
      ("Using engine " ++ jsOrStr e.displayName e.associationId ++
          " (not associated with project)") ∈ (resolveEngineCore none [instG1, instG2, { path := "C:\\UE4", version := some v4_27, associationId := "UE_4.27", source := some .launcher }]).warnings) ∧
    (resolveEngineCore none [instG1, instG2, { path := "C:\\UE4", version := some v4_27, associationId := "UE_4.27", source := some .launcher }]).engine = some instG2 :=
  ⟨resolve_version_max_fallback none _ (by decide) rfl, by decide⟩

/-- C3 counterexample: with an empty catalog and a successfully read association,
`resolveEngine` returns `engine = undefined` with an EMPTY warnings list — no
warning is produced for the zero-installations situation, contradicting the
claim that the warnings list is always non-empty in that case. -/
theorem resolve_empty_catalog_counterexample :
    (resolveEngineCore (some ⟨some assocG1, []⟩) []).engine = none ∧
    (resolveEngineCore (some ⟨some assocG1, []⟩) []).warnings = [] ∧
    (resolveEngineCore (some ⟨some assocG1, []⟩) []).error = none := by
  decide

/-- C3 amended: with an empty catalog `resolveEngine` returns `engine = none` and
no error (no thrown failure), and its warnings are exactly the warnings carried
over from the descriptor read — possibly the empty list; no zero-installations
warning is added. -/
theorem resolve_empty_catalog (upr : Option UProjectReadResult) :
    resolveEngineCore upr [] =
      { engine := none, uprojectEngine := associationOfRead upr, error := none,
        warnings := warningsOfRead upr } := by
  rcases upr with _ | ⟨_ | u, w⟩ <;> rfl

/-- Character-list test that `needle` begins `hay`. -/
def leadsList : List Char → List Char → Bool
  | [], _ => true
  | _ :: _, [] => false
  | a :: as, b :: bs => a == b && leadsList as bs

/-- Character-list test that `needle` occurs somewhere in `hay`
(JavaScript `String.prototype.includes`). -/
def hasSub (needle : List Char) : List Char → Bool
  | [] => leadsList needle []
  | c :: cs => leadsList needle (c :: cs) || hasSub needle cs

/-- JavaScript `s.includes(sub)`. -/
def jsIncludes (s sub : String) : Bool := hasSub sub.data s.data

/-- JavaScript `s.toLowerCase()` (character-wise lowering; agrees with JS on the
ASCII identifiers this code applies it to). -/
def jsToLower (s : String) : String := String.mk (s.data.map Char.toLower)

/-- JavaScript `s.endsWith(suffix)`. -/
def jsEndsWith (s suffix : String) : Bool :=
  leadsList suffix.data.reverse s.data.reverse

/-- Node `path.basename(file, ext)` for a plain file name (as returned by
`fs.readdir`): drops `ext` when the name ends with it. -/
def dropSuffix (s suffix : String) : String :=
  if jsEndsWith s suffix then
    String.mk (s.data.take (s.data.length - suffix.data.length))
  else s

/-- Target category used by `ProjectDetector.findTargetFiles`
(`'Editor' | 'Game' | 'Client' | 'Server'`). -/
inductive TargetType where
  | Editor
  | Game
  | Client
  | Server
  deriving DecidableEq, Repr

/-- Category inference of `ProjectDetector.findTargetFiles` (project-detector.ts
lines 136-145): default Game; `editor`, then `client`, then `server` by
case-insensitive substring match on the base name. -/
def pdInferType (fileName : String) : TargetType :=
  if jsIncludes (jsToLower fileName) "editor" then .Editor
  else if jsIncludes (jsToLower fileName) "client" then .Client
  else if jsIncludes (jsToLower fileName) "server" then .Server
  else .Game

def targetTypeName : TargetType → String
  | .Editor => "Editor"
  | .Game => "Game"
  | .Client => "Client"
  | .Server => "Server"

/-- Category inference of `BuildExecutor.getAvailableTargets` (engine.ts lines
650-657), which produces the category as a plain string. -/
def beInferType (name : String) : String :=
  if jsIncludes (jsToLower name) "editor" then "Editor"
  else if jsIncludes (jsToLower name) "client" then "Client"
  else if jsIncludes (jsToLower name) "server" then "Server"
  else "Game"

/-- Entry of the list produced by `BuildExecutor.getAvailableTargets`. -/
structure TargetEntry where
  name : String
  type : String
  deriving DecidableEq, Repr

/-- Embedding of `BuildExecutor.getAvailableTargets` (engine.ts lines 631-664),
given the file names `fs.readdir` returned for the Source directory: keep the
`*.Target.cs` files, strip the suffix, infer the category. -/
def getAvailableTargetsCore (files : List String) : List TargetEntry :=
  (files.filter (fun f => jsEndsWith f ".Target.cs")).map
    (fun f =>
      let name := dropSuffix f ".Target.cs"
      { name := name, type := beInferType name })

def genericTypes : List String := ["Editor", "Game", "Client", "Server"]

/-- Outcome of the target-resolution step: either the resolved concrete target
name or the thrown error message. -/
inductive TargetResolveResult where
  | ok (name : String)
  | error (message : String)
  deriving DecidableEq, Repr

/-- Embedding of the target-resolution step of `BuildExecutor.validateOptions`
(engine.ts lines 454-491): a generic category name resolves to the first target
of that category, then falls back to a substring match of the requested name,
then fails; an explicit name must match exactly; with no target files the
requested name passes through. `TargetResolveResult.error` embeds the thrown
`Error` (the `TargetNotFound` condition). -/
def resolveTargetName (availableTargets : List TargetEntry) (target : String) :
    TargetResolveResult :=
  if 0 < availableTargets.length then
    if genericTypes.contains target then
      match availableTargets.find? (fun t => t.type == target) with
      | some t => .ok t.name
      | none =>
        match availableTargets.find?
            (fun t => jsIncludes (jsToLower t.name) (jsToLower target)) with
        | some t => .ok t.name
        | none =>
          .error ("No " ++ target ++ " target found in project. Available targets: " ++
            String.intercalate ", " (availableTargets.map (fun t => t.name)))
    else
      if availableTargets.any (fun t => t.name == target) then .ok target
      else
        .error ("Target \"" ++ target ++ "\" not found in project. Available targets: " ++
          String.intercalate ", " (availableTargets.map (fun t => t.name)))
  else .ok target

/-- C7: with target files `MyGame.Target.cs` (inferred Game) and
`MyGameEditor.Target.cs` (inferred Editor), requesting the generic name
`"Editor"` resolves to the concrete name `MyGameEditor`, and requesting
`"Server"` (no Server target, no name containing `server`) fails with the
target-not-found error. -/
theorem target_resolution_editor_server :
    getAvailableTargetsCore ["MyGame.Target.cs", "MyGameEditor.Target.cs"] =
        [{ name := "MyGame", type := "Game" },
          { name := "MyGameEditor", type := "Editor" }] ∧
    resolveTargetName
        (getAvailableTargetsCore ["MyGame.Target.cs", "MyGameEditor.Target.cs"])
        "Editor" = TargetResolveResult.ok "MyGameEditor" ∧
    resolveTargetName
        (getAvailableTargetsCore ["MyGame.Target.cs", "MyGameEditor.Target.cs"])
        "Server" =
      TargetResolveResult.error
        "No Server target found in project. Available targets: MyGame, MyGameEditor" := by
  decide

/-- C10: the two independent category-inference routines
(`ProjectDetector.findTargetFiles` and `BuildExecutor.getAvailableTargets`) agree
on every base name, with the fixed precedence editor, then client, then server,
else Game; a name containing several keywords, such as `MyClientEditor`, is
classified Editor by both. -/
theorem target_category_inference_agreement :
    (∀ name : String, targetTypeName (pdInferType name) = beInferType name) ∧
    pdInferType "MyClientEditor" = TargetType.Editor ∧
    beInferType "MyClientEditor" = "Editor" := by
  refine ⟨?_, by decide, by decide⟩
  intro name
  simp only [pdInferType, beInferType]
  split_ifs <;> rfl

/-- Module declaration inside a `.uproject` (only presence matters to validation). -/
structure ModuleDecl where
  Name : String
  «Type» : String := "Runtime"
  LoadingPhase : String := "Default"
  deriving DecidableEq, Repr

/-- Parsed `.uproject` content (interface `UProject`).  `Option` marks fields
that may be `undefined` in the JSON; a `Modules` value that is present but not
an array is also embedded as `none` (the source treats both alike via
`!uproject.Modules || !Array.isArray(uproject.Modules)`). -/
structure UProjectData where
  FileVersion : Option Int := none
  EngineAssociation : Option String := none
  Modules : Option (List ModuleDecl) := none
  deriving DecidableEq, Repr

/-- Result of `ProjectDetector.validateUProject`. -/
structure ValidationResult where
  isValid : Bool
  error : Option String := none
  warnings : List String
  deriving DecidableEq, Repr

/-- JavaScript truthiness of the `EngineAssociation` field
(`undefined` and `""` are falsy). -/
def engineAssociationTruthy : Option String → Bool
  | none => false
  | some s => !s.isEmpty

/-- Embedding of `ProjectDetector.validateUProject` (project-detector.ts lines
105-126). -/
def validateUProject (uproject : UProjectData) : ValidationResult :=
  match uproject.FileVersion with
  | none =>
    { isValid := false, error := some "Missing FileVersion field", warnings := [] }
  | some fv =>
    let warnings :=
      if fv ≠ 3 then ["Unexpected FileVersion: " ++ toString fv ++ ". Expected 3."]
      else []
    if engineAssociationTruthy uproject.EngineAssociation = false then
      { isValid := false, error := some "Missing EngineAssociation field",
        warnings := warnings }
    else
      match uproject.Modules with
      | none =>
        { isValid := false, error := some "Missing or invalid Modules array",
          warnings := warnings }
      | some _ => { isValid := true, error := none, warnings := warnings }

/-- Embedding of the association-extraction step of
`EngineResolver.getEngineAssociationFromProject` (engine-resolver.ts lines
96-108) applied to an already-parsed `.uproject`: a falsy `EngineAssociation`
yields only a warning and resolution continues; `Modules` is never inspected. -/
def getAssociationFromUProject (uproject : UProjectData) : UProjectReadResult :=
  match uproject.EngineAssociation with
  | some s =>
    if s.isEmpty then
      { association := none,
        warnings := ["No EngineAssociation found in .uproject file"] }
    else { association := some { guid := s, name := some s }, warnings := [] }
  | none =>
    { association := none,
      warnings := ["No EngineAssociation found in .uproject file"] }

theorem resolveEngineCore_error_none (upr : Option UProjectReadResult)
    (catalog : List EngineInstallation) :
    (resolveEngineCore upr catalog).error = none := by
  simp only [resolveEngineCore]
  rcases matchedEngineOf (associationOfRead upr) catalog with _ | e
  · by_cases h : 0 < catalog.length
    · rw [if_pos h]
      rcases stableSort versionDescLe catalog with _ | ⟨e, rest⟩ <;> rfl
    · rw [if_neg h]
  · rfl

/-- C9 counterexample: a descriptor with `FileVersion` and `EngineAssociation`
but no `Modules` array is invalid per `validateUProject`, yet `resolveEngine`
still attempts and completes resolution against it: the association is extracted
and matched and an engine is returned, with no error and no rejection. -/
theorem descriptor_validation_counterexample :
    (validateUProject
        { FileVersion := some 3,
          EngineAssociation := some "{11111111-2222-3333-4444-555555555555}",
          Modules := none }).isValid = false ∧
    (resolveEngineCore
        (some (getAssociationFromUProject
          { FileVersion := some 3,
            EngineAssociation := some "{11111111-2222-3333-4444-555555555555}",
            Modules := none })) [instG1]).engine = some instG1 ∧
    (resolveEngineCore
        (some (getAssociationFromUProject
          { FileVersion := some 3,
            EngineAssociation := some "{11111111-2222-3333-4444-555555555555}",
            Modules := none })) [instG1]).error = none := by
  decide

/-- C9 amended: `ProjectDetector.validateUProject` rejects a descriptor whose
`EngineAssociation` is missing/empty or whose `Modules` array is missing, with a
field-level error naming the missing field; but this rejection happens only on
the `detectProject` path — `EngineResolver` itself records a missing association
as a warning and continues resolution without one, never inspects `Modules`, and
never reports an error for an invalid descriptor. -/
theorem descriptor_validation (up : UProjectData) (fv : Int)
    (hfv : up.FileVersion = some fv) :
    (engineAssociationTruthy up.EngineAssociation = false →
      validateUProject up =
        { isValid := false, error := some "Missing EngineAssociation field",
          warnings :=
            if fv ≠ 3 then ["Unexpected FileVersion: " ++ toString fv ++ ". Expected 3."]
            else [] }) ∧
    (engineAssociationTruthy up.EngineAssociation = true → up.Modules = none →
      validateUProject up =
        { isValid := false, error := some "Missing or invalid Modules array",
          warnings :=
            if fv ≠ 3 then ["Unexpected FileVersion: " ++ toString fv ++ ". Expected 3."]
            else [] }) ∧
    (up.EngineAssociation = none →
      getAssociationFromUProject up =
        { association := none,
          warnings := ["No EngineAssociation found in .uproject file"] }) ∧
    (∀ catalog,
      (resolveEngineCore (some (getAssociationFromUProject up)) catalog).error = none) := by
  refine ⟨?_, ?_, ?_, fun catalog => resolveEngineCore_error_none _ catalog⟩
  · intro hf
    simp [validateUProject, hfv, hf]
  · intro ht hm
    simp [validateUProject, hfv, ht, hm]
  · intro hn
    simp [getAssociationFromUProject, hn]

theorem descriptor_validation_witness :
    validateUProject { FileVersion := some 3, EngineAssociation := none, Modules := none } =
      { isValid := false, error := some "Missing EngineAssociation field",
        warnings := [] } := by
  have h := descriptor_validation
    { FileVersion := some 3, EngineAssociation := none, Modules := none } 3 rfl
  simpa using h.1 rfl

/-- Whitespace test covering the characters JavaScript `\\s` matches in the
inputs at hand (and `String.trim` semantics). -/
def isWs (c : Char) : Bool :=
  c == ' ' || c == '\t' || c == '\r' || c == '\n' || c == '\x0b' || c == '\x0c'

/-- Separator class `[._]` of the version regex. -/
def isSepCh (c : Char) : Bool := c == '.' || c == '_'

/-- Greedy scan for the regex tail `\d+(?:[._]\d+)*` once positioned at its first
digit: digits are consumed greedily, and a separator is consumed only when a
digit follows it (nothing follows the capture in the pattern, so the greedy
match is the maximal such scan). -/
def capScan : List Char → List Char
  | [] => []
  | c :: rest =>
    if c.isDigit then c :: capScan rest
    else if isSepCh c then
      match rest with
      | d :: _ => if d.isDigit then c :: capScan rest else []
      | [] => []
    else []

/-- Attempt of the version regex `/UE_(?:5|4)[._]?(\d+(?:[._]\d+)*)/i`
(engine-resolver.ts line 418) at the start of `cs`, returning the first capture
group on success.  `UE_` is matched case-insensitively, `(?:5|4)` forces a
literal `5` or `4` OUTSIDE the capture, the optional separator is consumed
greedily when the capture can still start with a digit (backtracking to the
empty separator can never succeed, since the capture must then start at the
separator character, which is not a digit). -/
def ueMatchAt : List Char → Option (List Char)
  | c1 :: c2 :: c3 :: c4 :: rest =>
    if c1.toLower == 'u' && c2.toLower == 'e' && c3 == '_' && (c4 == '5' || c4 == '4') then
      match rest with
      | c5 :: rest2 =>
        if isSepCh c5 then
          match rest2 with
          | d :: _ => if d.isDigit then some (capScan rest2) else none
          | [] => none
        else if c5.isDigit then some (capScan (c5 :: rest2))
        else none
      | [] => none
    else none
  | _ => none

/-- Leftmost match of the version regex over the whole path
(JavaScript `String.prototype.match` tries every start position left to right). -/
def ueFindMatch : List Char → Option (List Char)
  | [] => none
  | c :: cs =>
    match ueMatchAt (c :: cs) with
    | some cap => some cap
    | none => ueFindMatch cs

/-- JavaScript `versionStr.replace('_', '.')` — with a string pattern, `replace`
substitutes only the FIRST occurrence. -/
def replaceFirstUnderscore : List Char → List Char
  | [] => []
  | c :: cs => if c == '_' then '.' :: cs else c :: replaceFirstUnderscore cs

/-- JavaScript `s.split('.')`. -/
def splitOnDot : List Char → List (List Char)
  | [] => [[]]
  | c :: cs =>
    if c == '.' then [] :: splitOnDot cs
    else
      match splitOnDot cs with
      | seg :: rest => (c :: seg) :: rest
      | [] => [[c]]

def digitsToInt (ds : List Char) : Int :=
  ds.foldl (fun acc c => acc * 10 + ((c.toNat - 48 : Nat) : Int)) 0

/-- JavaScript `parseInt(s)` at radix 10: leading whitespace skipped, optional
sign, then the leading digits; no digits means NaN, embedded as `none`. -/
def jsParseInt (cs : List Char) : Option Int :=
  let t := cs.dropWhile (fun c => isWs c)
  let st :=
    match t with
    | '-' :: r => ((-1 : Int), r)
    | '+' :: r => ((1 : Int), r)
    | _ => ((1 : Int), t)
  let ds := st.2.takeWhile Char.isDigit
  if ds.isEmpty then none else some (st.1 * digitsToInt ds)

/-- JavaScript `x || d` for a number `x` that may be NaN: NaN and `0` are falsy. -/
def jsOrInt (x : Option Int) (d : Int) : Int :=
  match x with
  | none => d
  | some n => if n = 0 then d else n

/-- JavaScript `parseInt(versionStr.split('.')[i])`: indexing out of range gives
`undefined`, and `parseInt(undefined)` is NaN. -/
def segAt (segs : List (List Char)) (i : Nat) : Option Int :=
  match segs.get? i with
  | some seg => jsParseInt seg
  | none => none

/-- Embedding of `EngineResolver.loadEngineVersionInfo` (engine-resolver.ts lines
392-437).  `readVersionFile` abstracts the probe of the two candidate version
files relative to the installation root (`Engine/Binaries/Win64/UnrealEditor.version`,
then `Engine/Build/Build.version`): it returns the first found and successfully
parsed version record, or `none` when no candidate is found or parses.  When it
is `none` the path-pattern fallback of lines 417-433 runs. -/
def loadEngineVersionInfo (readVersionFile : String → Option EngineVersionInfo)
    (installation : EngineInstallation) : EngineInstallation :=
  match readVersionFile installation.path with
  | some versionInfo =>
    { installation with
      version := some versionInfo
      displayName := some ("UE " ++ toString versionInfo.MajorVersion ++ "." ++
        toString versionInfo.MinorVersion ++ "." ++ toString versionInfo.PatchVersion) }
  | none =>
    match ueFindMatch installation.path.data with
    | some cap =>
      let versionStr := replaceFirstUnderscore cap
      let segs := splitOnDot versionStr
      { installation with
        version := some
          { MajorVersion := jsOrInt (segAt segs 0) 5
            MinorVersion := jsOrInt (segAt segs 1) 0
            PatchVersion := jsOrInt (segAt segs 2) 0
            Changelist := 0, CompatibleChangelist := 0
            IsLicenseeVersion := 0, IsPromotedBuild := 0
            BranchName := "", BuildId := "" }
        displayName := some ("UE " ++ String.mk versionStr) }
    | none => installation

/-- C8: evaluation of the path-pattern fallback at the claim's own example.  For
an installation under `...\UE_5.3` with no parseable version file, the regex
`/UE_(?:5|4)[._]?(\d+(?:[._]\d+)*)/i` consumes the `5` and the `.` outside the
capture group, so the capture is `3` and the code yields MajorVersion 3,
MinorVersion 0 and display name `UE 3` — not MajorVersion 5 / MinorVersion 3 as
the claim (and the evident intent of the code) states. -/
theorem path_version_fallback_bug :
    (loadEngineVersionInfo (fun _ => none)
        { path := "C:\\Program Files\\Epic Games\\UE_5.3", version := none,
          associationId := "UE_5.3", source := some .launcher }).version =
      some { MajorVersion := 3, MinorVersion := 0, PatchVersion := 0, Changelist := 0,
             CompatibleChangelist := 0, IsLicenseeVersion := 0, IsPromotedBuild := 0,
             BranchName := "", BuildId := "" } ∧
    (loadEngineVersionInfo (fun _ => none)
        { path := "C:\\Program Files\\Epic Games\\UE_5.3", version := none,
          associationId := "UE_5.3", source := some .launcher }).displayName =
      some "UE 3" := by
  decide

/-- Normalization key used for deduplication:
`path.normalize(installation.path).toLowerCase()`. -/
def dedupKey (pathNormalize : String → String) (p : String) : String :=
  jsToLower (pathNormalize p)

/-- Loop of `EngineResolver.removeDuplicateEngines` (engine-resolver.ts lines
442-455): walk the list, keeping a record only when its normalized lower-cased
path has not been seen.  `pathNormalize` abstracts the Node standard-library
collaborator `path.normalize` (separator normalization). -/
def removeDuplicateEnginesGo (pathNormalize : String → String)
    (seen : List String) : List EngineInstallation → List EngineInstallation
  | [] => []
  | installation :: rest =>
    let normalizedPath := dedupKey pathNormalize installation.path
    if seen.contains normalizedPath then
      removeDuplicateEnginesGo pathNormalize seen rest
    else
      installation ::
        removeDuplicateEnginesGo pathNormalize (normalizedPath :: seen) rest

def removeDuplicateEngines (pathNormalize : String → String)
    (installations : List EngineInstallation) : List EngineInstallation :=
  removeDuplicateEnginesGo pathNormalize [] installations

/-- Embedding of `EngineResolver.findEngineInstallations` (engine-resolver.ts
lines 119-148), parameterized by the per-source discovery results (registry and
launcher records, pushed in that order on Windows only, then the environment
record) and by the collaborators described at `removeDuplicateEngines` and
`loadEngineVersionInfo`.  The in-place version-loading loop (lines 143-145) is
embedded as a map over the deduplicated catalog. -/
def findEngineInstallations (isWindows : Bool) (pathNormalize : String → String)
    (readVersionFile : String → Option EngineVersionInfo)
    (registryEngines launcherEngines : List EngineInstallation)
    (envEngine : Option EngineInstallation) : List EngineInstallation :=
  let installations :=
    (if isWindows then registryEngines ++ launcherEngines else []) ++ envEngine.toList
  let uniqueInstallations := removeDuplicateEngines pathNormalize installations
  uniqueInstallations.map (loadEngineVersionInfo readVersionFile)

theorem loadEngineVersionInfo_path (readVersionFile : String → Option EngineVersionInfo)
    (inst : EngineInstallation) :
    (loadEngineVersionInfo readVersionFile inst).path = inst.path := by
  rcases hr : readVersionFile inst.path with _ | vi
  · rcases hm : ueFindMatch inst.path.data with _ | cap <;>
      simp [loadEngineVersionInfo, hr, hm]
  · simp [loadEngineVersionInfo, hr]

theorem removeDuplicateEnginesGo_filter (pathNormalize : String → String) (k : String) :
    ∀ (seen : List String) (xs : List EngineInstallation),
      (removeDuplicateEnginesGo pathNormalize seen xs).filter
          (fun e => dedupKey pathNormalize e.path == k) =
        if seen.contains k then []
        else (xs.find? (fun e => dedupKey pathNormalize e.path == k)).toList
  | seen, [] => by
    simp [removeDuplicateEnginesGo]
  | seen, x :: xs => by
    rw [removeDuplicateEnginesGo]
    by_cases hseen : seen.contains (dedupKey pathNormalize x.path) = true
    · rw [if_pos hseen, removeDuplicateEnginesGo_filter pathNormalize k seen xs]
      by_cases hk : (dedupKey pathNormalize x.path == k) = true
      · have hkk := eq_of_beq hk
        have hmem : k ∈ seen := by
          rw [← hkk]
          simpa using hseen
        simp [hmem]
      · rw [@List.find?_cons_of_neg _ (fun e => dedupKey pathNormalize e.path == k) x xs hk]
    · rw [if_neg hseen, List.filter_cons]
      by_cases hk : (dedupKey pathNormalize x.path == k) = true
      · have hkk := eq_of_beq hk
        have hnmem : k ∉ seen := by
          intro hm
          rw [← hkk] at hm
          exact hseen (by simpa using hm)
        rw [if_pos hk, removeDuplicateEnginesGo_filter pathNormalize k _ xs,
          @List.find?_cons_of_pos _ (fun e => dedupKey pathNormalize e.path == k) x xs hk]
        subst hkk
        simp [hnmem]
      · have hne : dedupKey pathNormalize x.path ≠ k := by
          intro he
          rw [he] at hk
          simp at hk
        rw [if_neg hk, removeDuplicateEnginesGo_filter pathNormalize k _ xs,
          @List.find?_cons_of_neg _ (fun e => dedupKey pathNormalize e.path == k) x xs hk]
        have hc : (dedupKey pathNormalize x.path :: seen).contains k = seen.contains k := by
          rw [List.contains_cons]
          have hfk : (k == dedupKey pathNormalize x.path) = false := by
            simpa using Ne.symm hne
          rw [hfk, Bool.false_or]
        rw [hc]

/-- C5: deduplication invariant.  For every normalization key `k`, the catalog
built by `findEngineInstallations` (with the sources contributing in the fixed
order registry, then launcher, then environment) contains exactly the
version-loaded image of the FIRST discovered record whose normalized
(separator-normalized, lower-cased) path has key `k` — and no entry at all when
no record has key `k`.  In particular the catalog has exactly one entry per
normalized path: two records differing only in source yield a single entry
carrying the first-discovered record's metadata. -/
theorem dedup_invariant (pathNormalize : String → String)
    (readVersionFile : String → Option EngineVersionInfo)
    (registryEngines launcherEngines : List EngineInstallation)
    (envEngine : Option EngineInstallation) (k : String) :
    (findEngineInstallations true pathNormalize readVersionFile registryEngines
        launcherEngines envEngine).filter
        (fun e => dedupKey pathNormalize e.path == k) =
      ((((registryEngines ++ launcherEngines) ++ envEngine.toList).find?
          (fun e => dedupKey pathNormalize e.path == k)).map
        (loadEngineVersionInfo readVersionFile)).toList := by
  have hpath : ∀ e : EngineInstallation,
      dedupKey pathNormalize (loadEngineVersionInfo readVersionFile e).path
        = dedupKey pathNormalize e.path := by
    intro e
    rw [loadEngineVersionInfo_path]
  rw [findEngineInstallations]
  simp only
  rw [if_pos trivial, removeDuplicateEngines, List.filter_map]
  have hcong :
      (removeDuplicateEnginesGo pathNormalize []
          ((registryEngines ++ launcherEngines) ++ envEngine.toList)).filter
          ((fun e => dedupKey pathNormalize e.path == k) ∘
            loadEngineVersionInfo readVersionFile) =
      (removeDuplicateEnginesGo pathNormalize []
          ((registryEngines ++ launcherEngines) ++ envEngine.toList)).filter
          (fun e => dedupKey pathNormalize e.path == k) := by
    apply List.filter_congr
    intro e _
    simp [Function.comp, hpath e]
  rw [hcong, removeDuplicateEnginesGo_filter pathNormalize k []]
  rw [if_neg (by simp)]
  generalize ((registryEngines ++ launcherEngines) ++ envEngine.toList).find?
      (fun e => dedupKey pathNormalize e.path == k) = o
  rcases o with _ | e <;> rfl

/-- JavaScript `String.prototype.trim` on a list of characters. -/
def trimList (cs : List Char) : List Char :=
  ((cs.dropWhile isWs).reverse.dropWhile isWs).reverse

/-- The literal token `REG_SZ` looked for by the registry-output parser. -/
def regSZchars : List Char := ['R', 'E', 'G', '_', 'S', 'Z']

/-- Match of the regex tail `\\s+(.+)$` against `cs`: at least one whitespace
character, then the capture takes the rest greedily.  When everything after the
mandatory whitespace is whitespace too, backtracking hands the final character
to the capture (`.` matches whitespace). -/
def wsThenRest : List Char → Option (List Char)
  | [] => none
  | c :: rest =>
    if isWs c then
      if ((c :: rest).dropWhile isWs).isEmpty then
        match rest with
        | [] => none
        | r :: rs => some [(r :: rs).getLast (List.cons_ne_nil r rs)]
      else some ((c :: rest).dropWhile isWs)
    else none

/-- Leftmost match of `/REG_SZ\\s+(.+)$/` (engine-resolver.ts lines 246, 254):
start positions are tried left to right; at the first where the literal
`REG_SZ` is followed by a matching `\\s+(.+)$` the capture is returned. -/
def regSzTail : List Char → Option (List Char)
  | [] => none
  | c :: cs =>
    if leadsList regSZchars (c :: cs) then
      match wsThenRest ((c :: cs).drop 6) with
      | some cap => some cap
      | none => regSzTail cs
    else regSzTail cs

/-- Attempt of `/{([^}]+)}\\s+REG_SZ\\s+(.+)$/` (engine-resolver.ts line 223) at one
start position.  Each step is forced: the position must hold `{`; the capture
`[^}]+` is the non-empty run up to the first `}` (no shorter run is followed by
`}`); each `\\s+` is the maximal whitespace run (the following literal starts
with a non-whitespace character); the final capture takes the rest.  Returns
the braced guid and the path capture. -/
def fullMatchAt (cs : List Char) : Option (List Char × List Char) :=
  match cs with
  | [] => none
  | c :: rest =>
    if c == '{' then
      let inner := rest.takeWhile (fun d => !(d == '}'))
      let after := rest.dropWhile (fun d => !(d == '}'))
      if after.isEmpty then none
      else if inner.isEmpty then none
      else
        let rest2 := after.tail
        let rest3 := rest2.dropWhile isWs
        if (rest2.takeWhile isWs).isEmpty then none
        else if leadsList regSZchars rest3 then
          match wsThenRest (rest3.drop 6) with
          | some cap2 => some ('{' :: inner ++ ['}'], cap2)
          | none => none
        else none
    else none

/-- Leftmost search of `/{([^}]+)}\\s+REG_SZ\\s+(.+)$/` over a line. -/
def fullLineMatch : List Char → Option (List Char × List Char)
  | [] => none
  | c :: cs =>
    match fullMatchAt (c :: cs) with
    | some r => some r
    | none => fullLineMatch cs

/-- Match of the anchored `/^({[^}]+})/` (engine-resolver.ts line 240). -/
def guidLineMatch (cs : List Char) : Option (List Char) :=
  match cs with
  | [] => none
  | c :: rest =>
    if c == '{' then
      let inner := rest.takeWhile (fun d => !(d == '}'))
      let after := rest.dropWhile (fun d => !(d == '}'))
      if after.isEmpty then none
      else if inner.isEmpty then none
      else some ('{' :: inner ++ ['}'])
    else none

/-- Installation record pushed by `queryRegistryKey` for a braced association id
and an engine path (engine-resolver.ts lines 228-234 and 266-273). -/
def mkRegistryRecord (guid enginePath : List Char) : EngineInstallation :=
  { path := String.mk enginePath, associationId := String.mk guid,
    displayName := some ("UE Engine " ++ String.mk guid), version := none,
    source := some .registry }

/-- Inner forward scan of the multi-line layout (engine-resolver.ts lines
250-263): from the line after the guid line, return the first `REG_SZ` path
capture, stopping without a result at the next guid line or at a line
mentioning the queried registry key. -/
def scanForward (registryKey : List Char) : List (List Char) → Option (List Char)
  | [] => none
  | rawNext :: rest =>
    let nextLine := trimList rawNext
    if hasSub regSZchars nextLine then
      match regSzTail nextLine with
      | some cap => some (trimList cap)
      | none => scanForward registryKey rest
    else if leadsList ['{'] nextLine || hasSub registryKey nextLine then none
    else scanForward registryKey rest

/-- Outer line loop of `queryRegistryKey` (engine-resolver.ts lines 218-279):
each line is trimmed; an empty line is skipped; a full single-line match yields
a record immediately; otherwise a line starting with `{` yields a record from a
same-line `REG_SZ` match or from the forward scan; the loop then continues with
the next line (the scan does not consume lines). -/
def parseRegistryLines (registryKey : List Char) : List (List Char) → List EngineInstallation
  | [] => []
  | rawLine :: rest =>
    let line := trimList rawLine
    if line.isEmpty then parseRegistryLines registryKey rest
    else
      match fullLineMatch line with
      | some (guid, cap) =>
        mkRegistryRecord guid (trimList cap) :: parseRegistryLines registryKey rest
      | none =>
        if leadsList ['{'] line then
          match guidLineMatch line with
          | some guid =>
            match regSzTail line with
            | some cap =>
              mkRegistryRecord guid (trimList cap) :: parseRegistryLines registryKey rest
            | none =>
              match scanForward registryKey rest with
              | some enginePath =>
                mkRegistryRecord guid enginePath :: parseRegistryLines registryKey rest
              | none => parseRegistryLines registryKey rest
          | none => parseRegistryLines registryKey rest
        else parseRegistryLines registryKey rest

/-- JavaScript `stdout.split('\\n')`. -/
def splitLines : List Char → List (List Char)
  | [] => [[]]
  | c :: cs =>
    if c == '\n' then [] :: splitLines cs
    else
      match splitLines cs with
      | seg :: rest => (c :: seg) :: rest
      | [] => [[c]]

/-- Embedding of the output-parsing part of `EngineResolver.queryRegistryKey`
(engine-resolver.ts lines 199-286), applied to the raw text of the
`reg query <key> /s` call. -/
def queryRegistryParse (registryKey stdout : List Char) : List EngineInstallation :=
  parseRegistryLines registryKey (splitLines stdout)

def sp4 : List Char := [' ', ' ', ' ', ' ']

def enginePathChars : List Char := ['E', 'n', 'g', 'i', 'n', 'e', 'P', 'a', 't', 'h']

/-- Single-line registry layout, as documented in the source comment
(engine-resolver.ts lines 211-212): `{GUID}    REG_SZ    <EnginePath>`. -/
def singleLineLayout (id p : List Char) : List Char :=
  '{' :: id ++ '}' :: (sp4 ++ (regSZchars ++ (sp4 ++ p)))

/-- Multi-line registry layout, as documented in the source comment
(engine-resolver.ts lines 213-215): `{GUID}` alone on its line, then an
indented `EnginePath    REG_SZ    <Path>` line. -/
def multiLineLayout (id p : List Char) : List Char :=
  '{' :: id ++ '}' :: '\n' :: (sp4 ++ (enginePathChars ++ (sp4 ++ (regSZchars ++ (sp4 ++ p)))))

theorem dropWhile_isWs_append (X : List Char) (hX : ∀ c ∈ X, isWs c = true)
    (l : List Char) : (X ++ l).dropWhile isWs = l.dropWhile isWs := by
  induction X with
  | nil => rfl
  | cons c cs ih =>
    rw [List.cons_append, List.dropWhile_cons, if_pos (hX c (by simp))]
    exact ih (fun d hd => hX d (by simp [hd]))

theorem dropWhile_eq_self_of_head (P : Char → Bool) (c : Char) (l : List Char)
    (hc : P c = false) : (c :: l).dropWhile P = c :: l := by
  rw [List.dropWhile_cons, if_neg (by simp [hc])]

theorem dropWhile_cons_eq_self (P : Char → Bool) (c : Char) (l : List Char)
    (h : (c :: l).dropWhile P = c :: l) : P c = false := by
  rw [List.dropWhile_eq_self_iff] at h
  simpa using h (by simp)

theorem trimList_eq_self (cs : List Char) (h1 : cs.dropWhile isWs = cs)
    (h2 : cs.reverse.dropWhile isWs = cs.reverse) : trimList cs = cs := by
  rw [trimList, h1, h2, List.reverse_reverse]

theorem leadsList_append_self (a l : List Char) : leadsList a (a ++ l) = true := by
  induction a with
  | nil => rfl
  | cons c cs ih => simp [leadsList, ih]

theorem leadsList_append_single (n : List Char) (c : Char) (hc : c ∉ n) :
    ∀ xs : List Char, leadsList n (xs ++ [c]) = leadsList n xs := by
  induction n with
  | nil => intro xs; rfl
  | cons a as ih =>
    intro xs
    rcases xs with _ | ⟨x, xs⟩
    · have ha : (a == c) = false := by
        have : a ≠ c := fun h => hc (by simp [h])
        simpa using this
      simp [leadsList, ha]
    · rw [List.cons_append]
      simp only [leadsList]
      rw [ih (fun hm => hc (by simp [hm])) xs]

theorem hasSub_append_single (n : List Char) (c : Char) (hc : c ∉ n) :
    ∀ xs : List Char, hasSub n (xs ++ [c]) = hasSub n xs := by
  intro xs
  induction xs with
  | nil =>
    show hasSub n [c] = hasSub n []
    rw [hasSub, hasSub]
    have h1 : leadsList n [c] = leadsList n [] := leadsList_append_single n c hc []
    rw [h1]
    rw [hasSub]
    exact Bool.or_self _
  | cons x xs ih =>
    rw [List.cons_append, hasSub, hasSub]
    rw [show x :: (xs ++ [c]) = (x :: xs) ++ [c] from rfl,
      leadsList_append_single n c hc (x :: xs), ih]

theorem hasSub_append_here (n X l : List Char) : hasSub n (X ++ (n ++ l)) = true := by
  induction X with
  | nil =>
    rcases n with _ | ⟨a, as⟩
    · rw [List.nil_append]
      rcases l with _ | ⟨x, xs⟩ <;> rfl
    · rw [List.nil_append]
      rw [show (a :: as) ++ l = a :: (as ++ l) from rfl, hasSub]
      rw [show a :: (as ++ l) = (a :: as) ++ l from rfl, leadsList_append_self]
      rfl
  | cons x xs ih =>
    rw [List.cons_append, hasSub, ih, Bool.or_true]

theorem splitLines_no_newline (cs : List Char) (h : '\n' ∉ cs) :
    splitLines cs = [cs] := by
  induction cs with
  | nil => rfl
  | cons c cs ih =>
    have hc : (c == '\n') = false := by
      have : c ≠ '\n' := fun he => h (by simp [he])
      simpa using this
    rw [splitLines]
    rw [if_neg (by simp [hc])]
    rw [ih (fun hm => h (by simp [hm]))]

theorem splitLines_append_newline (a b : List Char) (h : '\n' ∉ a) :
    splitLines (a ++ '\n' :: b) = a :: splitLines b := by
  induction a with
  | nil =>
    rw [List.nil_append, splitLines, if_pos (by simp)]
  | cons c cs ih =>
    have hc : (c == '\n') = false := by
      have : c ≠ '\n' := fun he => h (by simp [he])
      simpa using this
    rw [List.cons_append, splitLines, if_neg (by simp [hc]),
      ih (fun hm => h (by simp [hm]))]

theorem takeWhile_until_boundary (P : Char → Bool) (id : List Char) (b : Char)
    (R : List Char) (h : ∀ c ∈ id, P c = true) (hb : P b = false) :
    (id ++ b :: R).takeWhile P = id ∧ (id ++ b :: R).dropWhile P = b :: R := by
  induction id with
  | nil =>
    rw [List.nil_append]
    constructor
    · rw [List.takeWhile_cons, if_neg (by simp [hb])]
    · rw [List.dropWhile_cons, if_neg (by simp [hb])]
  | cons c cs ih =>
    have hc := h c (by simp)
    have ih2 := ih (fun d hd => h d (by simp [hd]))
    constructor
    · rw [List.cons_append, List.takeWhile_cons, if_pos (by simp [hc]), ih2.1]
    · rw [List.cons_append, List.dropWhile_cons, if_pos (by simp [hc]), ih2.2]

theorem wsThenRest_ws_append (X p : List Char) (hXne : X ≠ [])
    (hX : ∀ c ∈ X, isWs c = true) (hp0 : p ≠ []) (hp1 : p.dropWhile isWs = p) :
    wsThenRest (X ++ p) = some p := by
  rcases X with _ | ⟨c, cs⟩
  · exact absurd rfl hXne
  · have hc : isWs c = true := hX c (by simp)
    have hd : (c :: (cs ++ p)).dropWhile isWs = p := by
      have h0 := dropWhile_isWs_append (c :: cs) hX p
      rw [List.cons_append] at h0
      rw [h0, hp1]
    have hpe : p.isEmpty = false := by
      rcases p with _ | ⟨x, xs⟩
      · exact absurd rfl hp0
      · rfl
    rw [List.cons_append]
    simp only [wsThenRest, hc, if_true, hd, hpe]
    rw [if_neg (by simp [hpe])]

theorem regSzTail_skip (c : Char) (cs : List Char)
    (h : leadsList regSZchars (c :: cs) = false) :
    regSzTail (c :: cs) = regSzTail cs := by
  rw [regSzTail, if_neg (by simp [h])]

theorem regSzTail_no_r_append (X : List Char) (hX : ∀ c ∈ X, (c == 'R') = false)
    (l : List Char) : regSzTail (X ++ l) = regSzTail l := by
  induction X with
  | nil => rfl
  | cons c cs ih =>
    have hc : ('R' == c) = false := by
      have h1 : c ≠ 'R' := by simpa using hX c (by simp)
      simpa using Ne.symm h1
    rw [List.cons_append,
      regSzTail_skip c (cs ++ l) (by simp [regSZchars, leadsList, hc])]
    exact ih (fun d hd => hX d (by simp [hd]))

theorem regSzTail_none (l : List Char) (h : hasSub regSZchars l = false) :
    regSzTail l = none := by
  induction l with
  | nil => rfl
  | cons c cs ih =>
    rw [hasSub] at h
    rcases Bool.or_eq_false_iff.mp h with ⟨h1, h2⟩
    rw [regSzTail_skip c cs h1, ih h2]

theorem regSzTail_at_token (p : List Char) (hp0 : p ≠ []) (hp1 : p.dropWhile isWs = p) :
    regSzTail (regSZchars ++ (sp4 ++ p)) = some p := by
  have hlead : leadsList regSZchars
      ('R' :: 'E' :: 'G' :: '_' :: 'S' :: 'Z' :: (sp4 ++ p)) = true :=
    leadsList_append_self regSZchars (sp4 ++ p)
  have hws : wsThenRest (' ' :: ' ' :: ' ' :: ' ' :: p) = some p :=
    wsThenRest_ws_append sp4 p (by decide) (by decide) hp0 hp1
  show regSzTail ('R' :: 'E' :: 'G' :: '_' :: 'S' :: 'Z' :: (sp4 ++ p)) = some p
  rw [regSzTail, if_pos hlead]
  have hdrop : (('R' :: 'E' :: 'G' :: '_' :: 'S' :: 'Z' :: (sp4 ++ p) : List Char)).drop 6
      = ' ' :: ' ' :: ' ' :: ' ' :: p := rfl
  rw [hdrop, hws]

theorem regSzTail_line2 (p : List Char) (hp0 : p ≠ []) (hp1 : p.dropWhile isWs = p) :
    regSzTail (enginePathChars ++ (sp4 ++ (regSZchars ++ (sp4 ++ p)))) = some p := by
  have hassoc : enginePathChars ++ (sp4 ++ (regSZchars ++ (sp4 ++ p)))
      = (enginePathChars ++ sp4) ++ (regSZchars ++ (sp4 ++ p)) := by
    simp [List.append_assoc]
  rw [hassoc, regSzTail_no_r_append (enginePathChars ++ sp4) (by decide),
    regSzTail_at_token p hp0 hp1]

theorem fullMatchAt_not_brace (c : Char) (cs : List Char) (hc : (c == '{') = false) :
    fullMatchAt (c :: cs) = none := by
  rw [fullMatchAt, if_neg (by simp [hc])]

theorem fullLineMatch_none_of_no_brace (l : List Char)
    (h : ∀ c ∈ l, (c == '{') = false) : fullLineMatch l = none := by
  induction l with
  | nil => rfl
  | cons c cs ih =>
    rw [fullLineMatch, fullMatchAt_not_brace c cs (h c (by simp)),
      ih (fun d hd => h d (by simp [hd]))]

theorem lastNonWs_of (p : List Char) (hp0 : p ≠ [])
    (hp2 : p.reverse.dropWhile isWs = p.reverse) :
    ∃ c t, p.reverse = c :: t ∧ isWs c = false := by
  rcases hr : p.reverse with _ | ⟨c, t⟩
  · have h0 : p = [] := by
      have := congrArg List.reverse hr
      simpa using this
    exact absurd h0 hp0
  · refine ⟨c, t, rfl, ?_⟩
    rw [hr] at hp2
    exact dropWhile_cons_eq_self isWs c t hp2

theorem reverse_dropWhile_append (X p : List Char) (hp0 : p ≠ [])
    (hp2 : p.reverse.dropWhile isWs = p.reverse) :
    (X ++ p).reverse.dropWhile isWs = (X ++ p).reverse := by
  rcases lastNonWs_of p hp0 hp2 with ⟨d, t, hrev, hd⟩
  rw [List.reverse_append, hrev, List.cons_append]
  exact dropWhile_eq_self_of_head isWs d _ hd

theorem trimList_ws_head_tail (ws0 : List Char) (hws0 : ∀ c ∈ ws0, isWs c = true)
    (c : Char) (mid p : List Char) (hc : isWs c = false)
    (hp0 : p ≠ []) (hp2 : p.reverse.dropWhile isWs = p.reverse) :
    trimList (ws0 ++ (c :: (mid ++ p))) = c :: (mid ++ p) := by
  rw [trimList, dropWhile_isWs_append ws0 hws0,
    dropWhile_eq_self_of_head isWs c _ hc]
  have h2 : (c :: (mid ++ p)).reverse.dropWhile isWs = (c :: (mid ++ p)).reverse := by
    have hform : (c :: (mid ++ p)) = (c :: mid) ++ p := by simp
    rw [hform]
    exact reverse_dropWhile_append (c :: mid) p hp0 hp2
  rw [h2, List.reverse_reverse]

theorem trimList_head_tail (c : Char) (mid p : List Char) (hc : isWs c = false)
    (hp0 : p ≠ []) (hp2 : p.reverse.dropWhile isWs = p.reverse) :
    trimList (c :: (mid ++ p)) = c :: (mid ++ p) :=
  trimList_ws_head_tail [] (by simp) c mid p hc hp0 hp2

theorem fullMatchAt_skeleton (id R : List Char) (hid0 : id.isEmpty = false)
    (hid1 : ∀ c ∈ id, (c == '}') = false) :
    fullMatchAt ('{' :: (id ++ '}' :: R)) =
      (if (R.takeWhile isWs).isEmpty then none
       else if leadsList regSZchars (R.dropWhile isWs) then
         match wsThenRest ((R.dropWhile isWs).drop 6) with
         | some cap2 => some ('{' :: id ++ ['}'], cap2)
         | none => none
       else none) := by
  have hb := takeWhile_until_boundary (fun d => !(d == '}')) id '}' R
    (fun c hc => by simp [hid1 c hc]) (by simp)
  simp only [fullMatchAt, hb.1, hb.2, hid0, List.isEmpty_cons, List.tail_cons,
    beq_self_eq_true, if_true, Bool.false_eq_true, if_false]

theorem fullMatchAt_line1_none (id : List Char) (hid0 : id.isEmpty = false)
    (hid1 : ∀ c ∈ id, (c == '}') = false) :
    fullMatchAt ('{' :: (id ++ ['}'])) = none := by
  have h := fullMatchAt_skeleton id [] hid0 hid1
  simpa using h

theorem fullLineMatch_line1_none (id : List Char) (hid0 : id.isEmpty = false)
    (hid1 : ∀ c ∈ id, (c == '}') = false) (hid2 : ∀ c ∈ id, (c == '{') = false) :
    fullLineMatch ('{' :: (id ++ ['}'])) = none := by
  rw [fullLineMatch, fullMatchAt_line1_none id hid0 hid1]
  rw [fullLineMatch_none_of_no_brace (id ++ ['}'])]
  intro c hc
  rcases List.mem_append.mp hc with h | h
  · exact hid2 c h
  · have : c = '}' := by simpa using h
    subst this
    decide

theorem guidLineMatch_line1 (id : List Char) (hid0 : id.isEmpty = false)
    (hid1 : ∀ c ∈ id, (c == '}') = false) :
    guidLineMatch ('{' :: (id ++ ['}'])) = some ('{' :: id ++ ['}']) := by
  have hb := takeWhile_until_boundary (fun d => !(d == '}')) id '}' []
    (fun c hc => by simp [hid1 c hc]) (by simp)
  simp only [guidLineMatch, hb.1, hb.2, hid0, List.isEmpty_cons,
    beq_self_eq_true, if_true, Bool.false_eq_true, if_false]

theorem hasSub_line1_false (id : List Char)
    (hid2 : hasSub regSZchars id = false) :
    hasSub regSZchars ('{' :: (id ++ ['}'])) = false := by
  rw [hasSub]
  have h1 : leadsList regSZchars ('{' :: (id ++ ['}'])) = false := by
    simp [regSZchars, leadsList]
  rw [h1, hasSub_append_single regSZchars '}' (by decide) id, hid2]
  rfl

theorem fullMatchAt_single (id p : List Char) (hid0 : id.isEmpty = false)
    (hid1 : ∀ c ∈ id, (c == '}') = false)
    (hp0 : p ≠ []) (hp1 : p.dropWhile isWs = p) :
    fullMatchAt ('{' :: (id ++ '}' :: (sp4 ++ (regSZchars ++ (sp4 ++ p))))) =
      some ('{' :: id ++ ['}'], p) := by
  rw [fullMatchAt_skeleton id (sp4 ++ (regSZchars ++ (sp4 ++ p))) hid0 hid1]
  have h1 : ((sp4 ++ (regSZchars ++ (sp4 ++ p))).takeWhile isWs).isEmpty = false := by
    rw [show sp4 ++ (regSZchars ++ (sp4 ++ p))
        = ' ' :: ([' ', ' ', ' '] ++ (regSZchars ++ (sp4 ++ p))) from rfl]
    rw [List.takeWhile_cons, if_pos (by decide)]
    rfl
  have h2 : (sp4 ++ (regSZchars ++ (sp4 ++ p))).dropWhile isWs
      = regSZchars ++ (sp4 ++ p) := by
    rw [dropWhile_isWs_append sp4 (by decide)]
    exact dropWhile_eq_self_of_head isWs 'R' _ (by decide)
  have h3 : leadsList regSZchars (regSZchars ++ (sp4 ++ p)) = true :=
    leadsList_append_self regSZchars (sp4 ++ p)
  have h4 : (regSZchars ++ (sp4 ++ p)).drop 6 = sp4 ++ p := rfl
  have hws : wsThenRest (sp4 ++ p) = some p :=
    wsThenRest_ws_append sp4 p (by decide) (by decide) hp0 hp1
  rw [if_neg (by simp [h1]), h2, if_pos h3, h4, hws]

theorem fullLineMatch_single (id p : List Char) (hid0 : id.isEmpty = false)
    (hid1 : ∀ c ∈ id, (c == '}') = false)
    (hp0 : p ≠ []) (hp1 : p.dropWhile isWs = p) :
    fullLineMatch ('{' :: (id ++ '}' :: (sp4 ++ (regSZchars ++ (sp4 ++ p))))) =
      some ('{' :: id ++ ['}'], p) := by
  rw [fullLineMatch, fullMatchAt_single id p hid0 hid1 hp0 hp1]

/-- Second line of the multi-line layout after trimming. -/
def line2core (p : List Char) : List Char :=
  enginePathChars ++ (sp4 ++ (regSZchars ++ (sp4 ++ p)))

theorem trim_line2 (p : List Char) (hp0 : p ≠ [])
    (hp2 : p.reverse.dropWhile isWs = p.reverse) :
    trimList (sp4 ++ line2core p) = line2core p := by
  have hform : line2core p
      = 'E' :: ((['n', 'g', 'i', 'n', 'e', 'P', 'a', 't', 'h'] ++
          (sp4 ++ (regSZchars ++ sp4))) ++ p) := by
    simp [line2core, enginePathChars, List.append_assoc]
  rw [hform]
  exact trimList_ws_head_tail sp4 (by decide) 'E' _ p (by decide) hp0 hp2

theorem scanForward_line2 (registryKey p : List Char) (hp0 : p ≠ [])
    (hp1 : p.dropWhile isWs = p) (hp2 : p.reverse.dropWhile isWs = p.reverse) :
    scanForward registryKey [sp4 ++ line2core p] = some p := by
  have htrim := trim_line2 p hp0 hp2
  have hsub : hasSub regSZchars (line2core p) = true := by
    have hform : line2core p
        = (enginePathChars ++ sp4) ++ (regSZchars ++ (sp4 ++ p)) := by
      simp [line2core, List.append_assoc]
    rw [hform]
    exact hasSub_append_here regSZchars (enginePathChars ++ sp4) (sp4 ++ p)
  have hreg : regSzTail (line2core p) = some p := regSzTail_line2 p hp0 hp1
  have htrimp : trimList p = p := trimList_eq_self p hp1 hp2
  simp only [scanForward, htrim, hsub, if_true, hreg, htrimp]

theorem fullLineMatch_line2_none (p : List Char) (hp3 : '{' ∉ p) :
    fullLineMatch (line2core p) = none := by
  have hconc : ∀ c ∈ (enginePathChars ++ (sp4 ++ (regSZchars ++ sp4)) : List Char),
      (c == '{') = false := by decide
  apply fullLineMatch_none_of_no_brace
  intro c hc
  have hform : line2core p
      = (enginePathChars ++ (sp4 ++ (regSZchars ++ sp4))) ++ p := by
    simp [line2core, List.append_assoc]
  rw [hform] at hc
  rcases List.mem_append.mp hc with h | h
  · exact hconc c h
  · have hcc : c ≠ '{' := fun he => hp3 (he ▸ h)
    simpa using hcc

theorem line2core_ne_empty (p : List Char) : (line2core p).isEmpty = false := by
  simp [line2core, enginePathChars]

theorem line2core_no_lead_brace (p : List Char) :
    leadsList ['{'] (line2core p) = false := by
  simp [line2core, enginePathChars, leadsList]

theorem parse_line2_nil (registryKey p : List Char) (hp0 : p ≠ [])
    (hp2 : p.reverse.dropWhile isWs = p.reverse) (hp3 : '{' ∉ p) :
    parseRegistryLines registryKey [sp4 ++ line2core p] = [] := by
  have htrim := trim_line2 p hp0 hp2
  simp only [parseRegistryLines, htrim, line2core_ne_empty p, Bool.false_eq_true,
    if_false, fullLineMatch_line2_none p hp3, line2core_no_lead_brace p]

theorem parse_single (registryKey id p : List Char) (hid0 : id.isEmpty = false)
    (hid1 : ∀ c ∈ id, (c == '}') = false)
    (hp0 : p ≠ []) (hp1 : p.dropWhile isWs = p)
    (hp2 : p.reverse.dropWhile isWs = p.reverse) :
    parseRegistryLines registryKey [singleLineLayout id p] =
      [mkRegistryRecord ('{' :: id ++ ['}']) p] := by
  have htrim : trimList (singleLineLayout id p) = singleLineLayout id p := by
    have hform : singleLineLayout id p
        = '{' :: ((id ++ '}' :: (sp4 ++ (regSZchars ++ sp4))) ++ p) := by
      simp [singleLineLayout, List.append_assoc]
    rw [hform]
    exact trimList_head_tail '{' _ p (by decide) hp0 hp2
  have hne : (singleLineLayout id p).isEmpty = false := by
    simp [singleLineLayout]
  have hfull : fullLineMatch (singleLineLayout id p) =
      some ('{' :: id ++ ['}'], p) :=
    fullLineMatch_single id p hid0 hid1 hp0 hp1
  have htrimp : trimList p = p := trimList_eq_self p hp1 hp2
  simp only [parseRegistryLines, htrim, hne, Bool.false_eq_true, if_false, hfull,
    htrimp]

theorem parse_multi (registryKey id p : List Char) (hid0 : id.isEmpty = false)
    (hid1 : ∀ c ∈ id, (c == '}') = false) (hid1b : ∀ c ∈ id, (c == '{') = false)
    (hid2 : hasSub regSZchars id = false)
    (hp0 : p ≠ []) (hp1 : p.dropWhile isWs = p)
    (hp2 : p.reverse.dropWhile isWs = p.reverse) (hp3 : '{' ∉ p) :
    parseRegistryLines registryKey ['{' :: (id ++ ['}']), sp4 ++ line2core p] =
      [mkRegistryRecord ('{' :: id ++ ['}']) p] := by
  have htrim1 : trimList ('{' :: (id ++ ['}'])) = '{' :: (id ++ ['}']) :=
    trimList_head_tail '{' id ['}'] (by decide) (by decide) (by decide)
  have h1e : ('{' :: (id ++ ['}']) : List Char).isEmpty = false := rfl
  have hfl := fullLineMatch_line1_none id hid0 hid1 hid1b
  have hlead : leadsList ['{'] ('{' :: (id ++ ['}'])) = true := by
    simp [leadsList]
  have hguid := guidLineMatch_line1 id hid0 hid1
  have hrsz : regSzTail ('{' :: (id ++ ['}'])) = none :=
    regSzTail_none _ (hasSub_line1_false id hid2)
  have hscan := scanForward_line2 registryKey p hp0 hp1 hp2
  have htrim2 := trim_line2 p hp0 hp2
  simp only [parseRegistryLines, htrim1, h1e, Bool.false_eq_true, if_false, hfl,
    hlead, if_true, hguid, hrsz, hscan, htrim2, line2core_ne_empty p,
    fullLineMatch_line2_none p hp3, line2core_no_lead_brace p]

/-- C6: registry layout equivalence.  For any association id (non-empty, free of
braces, whitespace and the literal `REG_SZ`) and any engine path (non-empty, no
surrounding whitespace, no `{`, no newline), parsing the single-line layout and
parsing the multi-line layout produce identical Installation records: the same
path, the same braced `associationId`, the same display name, `version`
undefined, and source `registry` — and exactly one record each. -/
theorem registry_layout_equivalence (registryKey id p : List Char)
    (hid0 : id ≠ [])
    (hid1 : ∀ c ∈ id, c ≠ '{' ∧ c ≠ '}' ∧ isWs c = false)
    (hid2 : hasSub regSZchars id = false)
    (hp0 : p ≠ []) (hp1 : p.dropWhile isWs = p)
    (hp2 : p.reverse.dropWhile isWs = p.reverse)
    (hp3 : '{' ∉ p) (hp4 : '\n' ∉ p) :
    queryRegistryParse registryKey (singleLineLayout id p) =
        queryRegistryParse registryKey (multiLineLayout id p) ∧
      queryRegistryParse registryKey (singleLineLayout id p) =
        [mkRegistryRecord ('{' :: id ++ ['}']) p] := by
  have hid0e : id.isEmpty = false := by
    rcases id with _ | ⟨x, xs⟩
    · exact absurd rfl hid0
    · rfl
  have hidc : ∀ c ∈ id, (c == '}') = false := fun c hc => by
    simpa using (hid1 c hc).2.1
  have hidb : ∀ c ∈ id, (c == '{') = false := fun c hc => by
    simpa using (hid1 c hc).1
  have hidn : '\n' ∉ id := fun hm => by
    have h := (hid1 '\n' hm).2.2
    simp [isWs] at h
  have hmem1 : ∀ c, c ∈ singleLineLayout id p →
      c ∈ ('{' :: '}' :: (sp4 ++ (regSZchars ++ sp4))) ∨ c ∈ id ∨ c ∈ p := by
    intro c hc
    simp only [singleLineLayout, List.mem_cons, List.mem_append] at hc ⊢
    tauto
  have hnl1 : '\n' ∉ singleLineLayout id p := by
    intro hm
    rcases hmem1 '\n' hm with h | h | h
    · revert h
      decide
    · exact hidn h
    · exact hp4 h
  have hnlA : '\n' ∉ ('{' :: (id ++ ['}']) : List Char) := by
    intro hm
    simp only [List.mem_cons, List.mem_append] at hm
    rcases hm with h | h | h
    · revert h
      decide
    · exact hidn h
    · revert h
      decide
  have hmem2 : ∀ c, c ∈ sp4 ++ line2core p →
      c ∈ (sp4 ++ (enginePathChars ++ (sp4 ++ (regSZchars ++ sp4)))) ∨ c ∈ p := by
    intro c hc
    simp only [line2core, List.mem_append] at hc ⊢
    tauto
  have hnlB : '\n' ∉ sp4 ++ line2core p := by
    intro hm
    rcases hmem2 '\n' hm with h | h
    · revert h
      decide
    · exact hp4 h
  have hsplit1 : splitLines (singleLineLayout id p) = [singleLineLayout id p] :=
    splitLines_no_newline _ hnl1
  have hm2form : multiLineLayout id p
      = ('{' :: (id ++ ['}'])) ++ '\n' :: (sp4 ++ line2core p) := by
    simp [multiLineLayout, line2core, List.append_assoc]
  have hsplit2 : splitLines (multiLineLayout id p)
      = ['{' :: (id ++ ['}']), sp4 ++ line2core p] := by
    rw [hm2form, splitLines_append_newline _ _ hnlA,
      splitLines_no_newline _ hnlB]
  constructor
  · rw [queryRegistryParse, queryRegistryParse, hsplit1, hsplit2,
      parse_single registryKey id p hid0e hidc hp0 hp1 hp2,
      parse_multi registryKey id p hid0e hidc hidb hid2 hp0 hp1 hp2 hp3]
  · rw [queryRegistryParse, hsplit1,
      parse_single registryKey id p hid0e hidc hp0 hp1 hp2]

theorem registry_layout_equivalence_witness :
    queryRegistryParse ['H', 'K'] (singleLineLayout ['A', '1', '-', 'B']
          ['C', ':', '\\', 'U', 'E', '_', '5', '.', '3']) =
        queryRegistryParse ['H', 'K'] (multiLineLayout ['A', '1', '-', 'B']
          ['C', ':', '\\', 'U', 'E', '_', '5', '.', '3']) ∧
      queryRegistryParse ['H', 'K'] (singleLineLayout ['A', '1', '-', 'B']
          ['C', ':', '\\', 'U', 'E', '_', '5', '.', '3']) =
        [mkRegistryRecord ('{' :: ['A', '1', '-', 'B'] ++ ['}'])
          ['C', ':', '\\', 'U', 'E', '_', '5', '.', '3']] :=
  registry_layout_equivalence ['H', 'K'] ['A', '1', '-', 'B']
    ['C', ':', '\\', 'U', 'E', '_', '5', '.', '3']
    (by decide) (by decide) (by decide) (by decide) (by decide) (by decide)
    (by decide) (by decide)

end UBuild